import Mathlib

/-
  Verification development for the PyAutoFit core:
  - parameter-space mapping engine (autofit/mapper/model_mapper.py)
  - refinement engine (ModelMapper.mapper_from_gaussian_tuples)
  - search-driver fitness adapters (autofit/optimize/non_linear.py)

  Numeric values are modelled as rationals.  Likelihood scores are modelled by
  an explicit type with a bottom element standing for Python's -numpy.inf.
  Exceptions are modelled with Except / explicit error codes.  Side effects
  (visualization, backup, checkpoint writes, results output) are modelled as
  events accumulated in lists.
-/

/-- A likelihood score: either negative infinity (numpy -inf) or a finite
rational value. -/
inductive Score where
  | negInf : Score
  | val : ℚ → Score
deriving DecidableEq, Repr

/-- Python `x < y` on scores, with -inf strictly below every finite value and
not below itself. -/
def Score.lt : Score → Score → Bool
  | .negInf, .negInf => false
  | .negInf, .val _ => true
  | .val _, .negInf => false
  | .val x, .val y => decide (x < y)

/-- Modelled from the spec (§3, §4.1): the Prior (Distribution) class is not
under src/.  A prior carries a monotonically increasing creation id used for
identity-based deduplication and deterministic ordering, a pure
unit-interval-to-physical transform `value_for`, and, when the prior is a
GaussianPrior, its (mean, sigma, lower limit, upper limit) data. -/
structure GaussianData where
  mean : ℚ
  sigma : ℚ
  lower : ℚ
  upper : ℚ

/-- Modelled from the spec (§3, §4.1): a Distribution with stable identity
`id`, transform `value_for`, and Gaussian family data when applicable. -/
structure Prior where
  id : ℕ
  value_for : ℚ → ℚ
  gaussian : Option GaussianData

/-- Modelled from the spec (§4.1): a uniform prior maps the unit interval
linearly between its limits. -/
def UniformPrior (idv : ℕ) (lower upper : ℚ) : Prior :=
  ⟨idv, fun u => lower + u * (upper - lower), none⟩

/-- Modelled from the spec (§4.4): a GaussianPrior stores the mean, sigma and
hard limits it is constructed with; its transform is the Gaussian family
transform, supplied as a parameter `gvf` since the inverse CDF is not part of
src/. -/
def mkGaussianPrior (gvf : ℚ → ℚ → ℚ → ℚ → ℚ → ℚ) (idv : ℕ)
    (mean sigma lower upper : ℚ) : Prior :=
  ⟨idv, gvf mean sigma lower upper, some ⟨mean, sigma, lower, upper⟩⟩

/-- Modelled from the spec (§4.2): a Parameter Node field holds either a
Distribution or a constant value. -/
inductive FieldValue where
  | prior : Prior → FieldValue
  | const : ℚ → FieldValue

/-- Modelled from the spec (§4.2): a Parameter Node (PriorModel) maps field
names to field values in declaration order. -/
structure PriorModel where
  fields : List (String × FieldValue)

/-- The ModelMapper of model_mapper.py: named prior models plus pass-through
instance attributes. -/
structure ModelMapper where
  models : List (String × PriorModel)
  instances : List (String × ℚ)

/-- The (name, prior) pairs directly owned by a prior model, in field
declaration order. -/
def PriorModel.prior_tuples (pm : PriorModel) : List (String × Prior) :=
  pm.fields.filterMap (fun f =>
    match f.2 with
    | .prior p => some (f.1, p)
    | .const _ => none)

/-- Concatenation of every model's prior tuples, in model declaration order.
This is the generator expression inside ModelMapper.prior_tuples. -/
def ModelMapper.all_prior_tuples (m : ModelMapper) : List (String × Prior) :=
  (m.models.map (fun nmpm => nmpm.2.prior_tuples)).flatten

/-- One step of Python dict insertion keyed by prior identity (creation id):
an existing key keeps its position but takes the new tuple; a new key is
appended. -/
def dictInsert (acc : List (String × Prior)) (t : String × Prior) :
    List (String × Prior) :=
  if acc.any (fun u => u.2.id == t.2.id) then
    acc.map (fun u => if u.2.id == t.2.id then t else u)
  else
    acc ++ [t]

/-- ModelMapper.prior_tuples: deduplication of all prior tuples by prior
identity, with Python dict comprehension semantics. -/
def ModelMapper.prior_tuples (m : ModelMapper) : List (String × Prior) :=
  m.all_prior_tuples.foldl dictInsert []

/-- Stable insertion into a list sorted by prior id (equal ids keep original
relative order, as Python's stable sort does). -/
def insertById (t : String × Prior) : List (String × Prior) → List (String × Prior)
  | [] => [t]
  | u :: rest => if t.2.id < u.2.id then t :: u :: rest else u :: insertById t rest

/-- Stable insertion sort by prior id, modelling Python's `sorted` with key
`prior.id`. -/
def sortById (l : List (String × Prior)) : List (String × Prior) :=
  l.foldr insertById []

/-- ModelMapper.prior_tuples_ordered_by_id: deduplicated prior tuples sorted
by creation id. -/
def ModelMapper.prior_tuples_ordered_by_id (m : ModelMapper) :
    List (String × Prior) :=
  sortById m.prior_tuples

/-- ModelMapper.prior_count: the length of prior_tuples_ordered_by_id. -/
def ModelMapper.prior_count (m : ModelMapper) : ℕ :=
  m.prior_tuples_ordered_by_id.length

/-- ModelMapper.physical_vector_from_hypercube_vector: elementwise value_for
over the ordered priors zipped with the input vector.  Python's two-iterable
`map` truncates to the shorter argument. -/
def ModelMapper.physical_vector_from_hypercube_vector (m : ModelMapper)
    (hypercube_vector : List ℚ) : List ℚ :=
  List.zipWith (fun t u => t.2.value_for u)
    m.prior_tuples_ordered_by_id hypercube_vector

/-- Errors raised by the mapping and refinement engine: KeyError during
resolution, PriorException for conflicting or unknown width policy, and
IndexError when the posterior summaries run out before the priors do. -/
inductive MapperError where
  | resolution
  | priorBoth
  | priorWidthType
  | indexError
deriving DecidableEq, Repr

/-- An Instance Graph: each prior model resolved to named leaf values, plus
the pass-through instance attributes. -/
structure ModelInstance where
  models : List (String × List (String × ℚ))
  attrs : List (String × ℚ)
deriving DecidableEq, Repr

/-- Lookup of a prior's physical value in the arguments dictionary (keyed by
prior identity). -/
def lookupArg (args : List (ℕ × ℚ)) (i : ℕ) : Option ℚ :=
  (args.find? (fun a => a.1 == i)).map (fun a => a.2)

/-- Resolve one field against the arguments dictionary; a prior absent from
the dictionary is a KeyError (the spec's ResolutionError). -/
def FieldValue.resolve (args : List (ℕ × ℚ)) : FieldValue → Except MapperError ℚ
  | .prior p =>
    match lookupArg args p.id with
    | some v => .ok v
    | none => .error .resolution
  | .const c => .ok c

/-- Resolve every field of a prior model elementwise. -/
def PriorModel.instance_for_arguments (pm : PriorModel) (args : List (ℕ × ℚ)) :
    Except MapperError (List (String × ℚ)) :=
  pm.fields.mapM (fun f => (f.2.resolve args).map (fun v => (f.1, v)))

/-- ModelMapper.instance_for_arguments: resolve every prior model and copy the
pass-through instance attributes onto the result. -/
def ModelMapper.instance_for_arguments (m : ModelMapper) (args : List (ℕ × ℚ)) :
    Except MapperError ModelInstance := do
  let ms ← m.models.mapM (fun nmpm =>
    (nmpm.2.instance_for_arguments args).map (fun r => (nmpm.1, r)))
  return ⟨ms, m.instances⟩

/-- ModelMapper.instance_from_unit_vector: pair each ordered prior with the
physical value of its unit coordinate, then resolve. -/
def ModelMapper.instance_from_unit_vector (m : ModelMapper)
    (unit_vector : List ℚ) : Except MapperError ModelInstance :=
  m.instance_for_arguments
    (List.zipWith (fun t u => (t.2.id, t.2.value_for u))
      m.prior_tuples_ordered_by_id unit_vector)

/-- ModelMapper.instance_from_physical_vector: pair each ordered prior with
its physical value directly, then resolve. -/
def ModelMapper.instance_from_physical_vector (m : ModelMapper)
    (physical_vector : List ℚ) : Except MapperError ModelInstance :=
  m.instance_for_arguments
    (List.zipWith (fun t v => (t.2.id, v))
      m.prior_tuples_ordered_by_id physical_vector)

/-- Width policy kinds returned by the prior-width configuration: relative
("r"), absolute ("a"), or an unrecognised kind. -/
inductive WidthKind where
  | relative
  | absolute
  | unknown
deriving DecidableEq, Repr

/-- The per-prior width computation of mapper_from_gaussian_tuples: relative
width multiplies the mean, absolute width is the value itself, and an
unrecognised kind raises a PriorException. -/
def widthOf (wk : WidthKind) (value mean : ℚ) : Option ℚ :=
  match wk with
  | .relative => some (value * mean)
  | .absolute => some value
  | .unknown => none

/-- The width-policy choice of mapper_from_gaussian_tuples: `a` wins when
present, then `r`, then the configured per-name policy. -/
def policyChoice (wc : String → WidthKind × ℚ) (a r : Option ℚ)
    (name : String) : WidthKind × ℚ :=
  match a with
  | some av => (.absolute, av)
  | none =>
    match r with
    | some rv => (.relative, rv)
    | none => wc name

/-- The limit carry-over of mapper_from_gaussian_tuples: an existing
GaussianPrior keeps its limits, any other prior looks them up by name. -/
def limitsFor (lc : String → ℚ × ℚ) (t : String × Prior) : ℚ × ℚ :=
  match t.2.gaussian with
  | some g => (g.lower, g.upper)
  | none => lc t.1

/-- The loop body of ModelMapper.mapper_from_gaussian_tuples over the ordered
prior tuples, starting at index `i`.  Faithful to the source order: the
posterior summary is indexed first (IndexError if missing), then the
mutual-exclusion check of `a` and `r` runs, then the width policy is chosen
(`a` first, then `r`, then the width configuration `wc`), the width is
computed, limits are carried over from an existing GaussianPrior or looked up
in the limit configuration `lc`, and the new GaussianPrior gets sigma
`max(tuples[i][1], width)`.  `gvf` is the Gaussian family transform and
`fresh` the next free creation id. -/
def gaussArgsAux (gvf : ℚ → ℚ → ℚ → ℚ → ℚ → ℚ) (wc : String → WidthKind × ℚ)
    (lc : String → ℚ × ℚ) (fresh : ℕ) (tuples : List (ℚ × ℚ))
    (a r : Option ℚ) : List (String × Prior) → ℕ → Except MapperError (List (ℕ × Prior))
  | [], _ => .ok []
  | t :: rest, i =>
    match tuples.get? i with
    | none => .error .indexError
    | some tp =>
      if a.isSome && r.isSome then .error .priorBoth
      else
        match widthOf (policyChoice wc a r t.1).1 (policyChoice wc a r t.1).2
            tp.1 with
        | none => .error .priorWidthType
        | some width =>
          (gaussArgsAux gvf wc lc fresh tuples a r rest (i + 1)).map
            (fun restArgs =>
              (t.2.id, mkGaussianPrior gvf (fresh + i) tp.1 (max tp.2 width)
                (limitsFor lc t).1 (limitsFor lc t).2) :: restArgs)

/-- Modelled from the spec (§4.4): AbstractPriorModel.
gaussian_prior_model_for_arguments is not under src/; it performs an
identity-preserving substitution of old priors by new priors, keyed by the
old prior. -/
def FieldValue.subst (args : List (ℕ × Prior)) : FieldValue → FieldValue
  | .prior p =>
    match args.find? (fun aPair => aPair.1 == p.id) with
    | some aPair => .prior aPair.2
    | none => .prior p
  | .const c => .const c

/-- Substitution applied to every field of a prior model. -/
def PriorModel.gaussian_prior_model_for_arguments (pm : PriorModel)
    (args : List (ℕ × Prior)) : PriorModel :=
  ⟨pm.fields.map (fun f => (f.1, f.2.subst args))⟩

/-- ModelMapper.mapper_from_prior_arguments: a copy of the mapper in which
every prior model is rebuilt by substituting new priors for old ones;
instance attributes are carried over. -/
def ModelMapper.mapper_from_prior_arguments (m : ModelMapper)
    (args : List (ℕ × Prior)) : ModelMapper :=
  ⟨m.models.map (fun nmpm =>
    (nmpm.1, nmpm.2.gaussian_prior_model_for_arguments args)), m.instances⟩

/-- ModelMapper.mapper_from_gaussian_tuples: build the old-prior-to-new-prior
arguments over the ordered priors, then substitute them into a copy of the
mapper. -/
def ModelMapper.mapper_from_gaussian_tuples (m : ModelMapper)
    (gvf : ℚ → ℚ → ℚ → ℚ → ℚ → ℚ) (wc : String → WidthKind × ℚ)
    (lc : String → ℚ × ℚ) (fresh : ℕ) (tuples : List (ℚ × ℚ))
    (a r : Option ℚ) : Except MapperError ModelMapper :=
  (gaussArgsAux gvf wc lc fresh tuples a r m.prior_tuples_ordered_by_id 0).map
    m.mapper_from_prior_arguments

/-- ModelMapper.mapper_from_gaussian_means: zero empirical widths, no
absolute or relative policy. -/
def ModelMapper.mapper_from_gaussian_means (m : ModelMapper)
    (gvf : ℚ → ℚ → ℚ → ℚ → ℚ → ℚ) (wc : String → WidthKind × ℚ)
    (lc : String → ℚ × ℚ) (fresh : ℕ) (means : List ℚ) :
    Except MapperError ModelMapper :=
  m.mapper_from_gaussian_tuples gvf wc lc fresh
    (means.map (fun mean => (mean, 0))) none none

/-- The field stored at model index `k`, field index `j`. -/
def ModelMapper.fieldAt (m : ModelMapper) (k j : ℕ) : Option (String × FieldValue) :=
  (m.models.get? k).bind (fun nmpm => nmpm.2.fields.get? j)

/-- Replace field `j` of a field list by the given prior (used to tie two
fields to one Distribution instance). -/
def setFields (q : Prior) : List (String × FieldValue) → ℕ → List (String × FieldValue)
  | [], _ => []
  | f :: fs, 0 => (f.1, FieldValue.prior q) :: fs
  | f :: fs, j + 1 => f :: setFields q fs j

/-- Replace field `j` of model `k` by the given prior. -/
def setModels (q : Prior) : List (String × PriorModel) → ℕ → ℕ → List (String × PriorModel)
  | [], _, _ => []
  | mdl :: ms, 0, j => (mdl.1, ⟨setFields q mdl.2.fields j⟩) :: ms
  | mdl :: ms, k + 1, j => mdl :: setModels q ms k j

/-- Assigning one field's Distribution to another field: the mapper with
field (k, j) rebound to the prior `q`. -/
def ModelMapper.sharePriorAt (m : ModelMapper) (k j : ℕ) (q : Prior) : ModelMapper :=
  ⟨setModels q m.models k j, m.instances⟩

/-- The creation ids of every prior occurrence in the tree, with
multiplicity, in declaration order. -/
def ModelMapper.allPriorIds (m : ModelMapper) : List ℕ :=
  m.all_prior_tuples.map (fun t => t.2.id)

/-- The sigma of the Gaussian prior held by field (k, j), when present. -/
def ModelMapper.fieldSigmaAt (m : ModelMapper) (k j : ℕ) : Option ℚ :=
  match m.fieldAt k j with
  | some (_, .prior p) => p.gaussian.map (fun g => g.sigma)
  | _ => none

/-- The sigma at field (k, j) of the mapper produced by a refinement call,
when the call succeeded and the field holds a Gaussian prior. -/
def mapperSigma (e : Except MapperError ModelMapper) (k j : ℕ) : Option ℚ :=
  match e with
  | .ok m2 => m2.fieldSigmaAt k j
  | .error _ => none

/-- IntervalCounter from non_linear.py: a call increments the count and
reports whether the count is a multiple of the interval; the sentinel
interval -1 disables the counter without incrementing it. -/
structure IntervalCounter where
  count : ℕ
  interval : ℤ

/-- IntervalCounter.__call__, returning the fired flag and the new counter. -/
def IntervalCounter.call (c : IntervalCounter) : Bool × IntervalCounter :=
  if c.interval = -1 then (false, c)
  else
    let c2 : IntervalCounter := ⟨c.count + 1, c.interval⟩
    (((c2.count : ℤ) % c2.interval == 0), c2)

/-- The outcome of one likelihood evaluation by the external analysis:
a score, the domain-specific FitException, or any other exception. -/
inductive FitOutcome where
  | ok : Score → FitOutcome
  | fitErr : FitOutcome
  | otherErr : FitOutcome

/-- An exception propagating through the fitness adapter. -/
inductive RunError where
  | fitException
  | otherException
deriving DecidableEq, Repr

/-- Observable side effects of the search driver, recorded as events. -/
inductive SideEffect where
  | evaluate : ModelInstance → SideEffect
  | visualize : ModelInstance → SideEffect
  | backup : SideEffect
  | checkpoint : ℕ → Score → Option (List ℚ) → SideEffect
  | gridResults : SideEffect
  | outputResults : SideEffect
deriving DecidableEq, Repr

/-- Merging of a model instance with the optimizer's constant instance
(Python `instance += self.constant`). -/
def ModelInstance.add (i c : ModelInstance) : ModelInstance :=
  ⟨i.models ++ c.models, i.attrs ++ c.attrs⟩

/-- The shared state of NonLinearOptimizer.Fitness: the constant instance,
the best likelihood seen (initially -inf), the best result, and the three
interval counters (log, visualise, backup). -/
structure FitnessCore where
  constant : ModelInstance
  max_likelihood : Score
  result : Option (ModelInstance × Score)
  should_log : IntervalCounter
  should_visualise : IntervalCounter
  should_backup : IntervalCounter

/-- NonLinearOptimizer.Fitness.__init__: counters start at zero with the
configured intervals, the best likelihood starts at -inf. -/
def initFitnessCore (constant : ModelInstance) (li vi bi : ℤ) : FitnessCore :=
  ⟨constant, .negInf, none, ⟨0, li⟩, ⟨0, vi⟩, ⟨0, bi⟩⟩

/-- The result of one fit_instance step: the likelihood or a propagated
exception, the new state, and the events that fired. -/
structure StepOut where
  out : Except RunError Score
  core : FitnessCore
  events : List SideEffect

/-- NonLinearOptimizer.Fitness.fit_instance: merge the constant, evaluate the
likelihood, and on improvement update the best result and give the visualise
counter a chance to fire; the backup counter is consulted on every
successful evaluation.  An exception from the analysis propagates with the
state unchanged. -/
def fit_instance (core : FitnessCore) (fit : ModelInstance → FitOutcome)
    (inst0 : ModelInstance) : StepOut :=
  let inst := inst0.add core.constant
  match fit inst with
  | .fitErr => ⟨.error .fitException, core, [.evaluate inst]⟩
  | .otherErr => ⟨.error .otherException, core, [.evaluate inst]⟩
  | .ok ℓ =>
    let improved :=
      if core.max_likelihood.lt ℓ then
        let coreA : FitnessCore :=
          { core with max_likelihood := ℓ, result := some (inst, ℓ) }
        let vr := coreA.should_visualise.call
        let coreB : FitnessCore := { coreA with should_visualise := vr.2 }
        (coreB, if vr.1 then [SideEffect.visualize inst] else [])
      else (core, [])
    let br := improved.1.should_backup.call
    let core2 : FitnessCore := { improved.1 with should_backup := br.2 }
    let bev := if br.1 then [SideEffect.backup] else []
    ⟨.ok ℓ, core2, [SideEffect.evaluate inst] ++ improved.2 ++ bev⟩

/-- Whether a list of events contains a visualize event. -/
def hasVisualize (evs : List SideEffect) : Bool :=
  evs.any (fun e =>
    match e with
    | .visualize _ => true
    | _ => false)

/-- Feed a sequence of likelihood values through fit_instance (each call's
analysis returns the given score on an empty instance) and record, per call,
whether the visualize side effect fired. -/
def visFlags (core : FitnessCore) : List Score → List Bool
  | [] => []
  | ℓ :: rest =>
    let so := fit_instance core (fun _ => FitOutcome.ok ℓ) ⟨[], []⟩
    hasVisualize so.events :: visFlags so.core rest

/-- Python `max` update: the larger of the running best and a new score. -/
def Score.max (a b : Score) : Score :=
  if a.lt b then b else a

/-- Declarative improvement flags: position i is true when the i-th score
strictly exceeds every earlier score (and the initial -inf). -/
def improveFlags (mx : Score) : List Score → List Bool
  | [] => []
  | ℓ :: rest => mx.lt ℓ :: improveFlags (mx.max ℓ) rest

/-- Running counts: position i holds `c` plus the number of true flags among
positions 0..i. -/
def runningCounts (c : ℕ) : List Bool → List ℕ
  | [] => []
  | b :: rest =>
    let c2 := if b then c + 1 else c
    c2 :: runningCounts c2 rest

/-- DownhillSimplex fitness values: the adapter returns -2 times the
likelihood, which is +inf when the likelihood is -inf. -/
inductive DSScore where
  | posInf : DSScore
  | val : ℚ → DSScore
deriving DecidableEq, Repr

/-- Multiplication by -2 of a likelihood score, as returned by
DownhillSimplex.Fitness.__call__. -/
def negTwo : Score → DSScore
  | .negInf => .posInf
  | .val q => .val (-2 * q)

/-- DownhillSimplex.Fitness.__call__: resolve the physical vector, evaluate,
catch FitException as likelihood -inf, and return -2 times the likelihood.
Any other exception propagates. -/
def dsCall (m : ModelMapper) (fit : ModelInstance → FitOutcome)
    (core : FitnessCore) (vector : List ℚ) :
    Except RunError (DSScore × FitnessCore × List SideEffect) :=
  match m.instance_from_physical_vector vector with
  | .error _ => .error .otherException
  | .ok inst =>
    let so := fit_instance core fit inst
    match so.out with
    | .ok ℓ => .ok (negTwo ℓ, so.core, so.events)
    | .error .fitException => .ok (negTwo .negInf, so.core, so.events)
    | .error .otherException => .error .otherException

/-- The state of MultiNest.Fitness: the shared core plus the accepted-sample
counter and its output cadence. -/
structure MNFitness where
  core : FitnessCore
  accepted_samples : ℕ
  number_between : ℕ

/-- MultiNest.Fitness.__call__: resolve, evaluate, catch FitException as
likelihood -inf; afterwards compare the likelihood against the (already
updated) best and output results every `number_between` accepted samples.
Any other exception propagates. -/
def mnCall (m : ModelMapper) (fit : ModelInstance → FitOutcome)
    (st : MNFitness) (cube : List ℚ) :
    Except RunError (Score × MNFitness × List SideEffect) :=
  match m.instance_from_physical_vector cube with
  | .error _ => .error .otherException
  | .ok inst =>
    let so := fit_instance st.core fit inst
    match so.out with
    | .error .otherException => .error .otherException
    | .error .fitException =>
      let st1 : MNFitness := { st with core := so.core }
      if st1.core.max_likelihood.lt .negInf then
        let st2 : MNFitness := { st1 with accepted_samples := st1.accepted_samples + 1 }
        if st2.accepted_samples = st2.number_between then
          .ok (.negInf, { st2 with accepted_samples := 0 },
            so.events ++ [SideEffect.outputResults])
        else .ok (.negInf, st2, so.events)
      else .ok (.negInf, st1, so.events)
    | .ok ℓ =>
      let st1 : MNFitness := { st with core := so.core }
      if st1.core.max_likelihood.lt ℓ then
        let st2 : MNFitness := { st1 with accepted_samples := st1.accepted_samples + 1 }
        if st2.accepted_samples = st2.number_between then
          .ok (ℓ, { st2 with accepted_samples := 0 },
            so.events ++ [SideEffect.outputResults])
        else .ok (ℓ, st2, so.events)
      else .ok (ℓ, st1, so.events)

/-- The state of GridSearch.Fitness: the shared core, the call counter, the
checkpointed calls to skip, the best fit and cube, the per-cube fit
dictionary, and the grid-results counter. -/
structure GridFitness where
  core : FitnessCore
  total_calls : ℕ
  checkpoint_count : ℕ
  best_fit : Score
  best_cube : Option (List ℚ)
  all_fits : List (List ℚ × Score)
  should_save_grid_results : IntervalCounter

/-- Python dict assignment keyed by the cube. -/
def dictSet (l : List (List ℚ × Score)) (k : List ℚ) (v : Score) :
    List (List ℚ × Score) :=
  if l.any (fun e => e.1 == k) then
    l.map (fun e => if e.1 == k then (k, v) else e)
  else l ++ [(k, v)]

/-- GridSearch.Fitness.__init__: counters and call count start at zero, the
checkpointed count, best fit and best cube seed the state, and a non-None
best cube is immediately resolved and evaluated once (the result is
discarded and total_calls is untouched).  An exception from that evaluation
propagates out of the constructor. -/
def mkGridFitness (m : ModelMapper) (fit : ModelInstance → FitOutcome)
    (constant : ModelInstance) (li vi bi gi : ℤ) (checkpoint_count : ℕ)
    (best_fit : Score) (best_cube : Option (List ℚ)) :
    GridFitness × List SideEffect × Option RunError :=
  let core0 := initFitnessCore constant li vi bi
  let st0 : GridFitness :=
    ⟨core0, 0, checkpoint_count, best_fit, best_cube, [], ⟨0, gi⟩⟩
  match best_cube with
  | none => (st0, [], none)
  | some c =>
    match m.instance_from_unit_vector c with
    | .error _ => (st0, [], some .otherException)
    | .ok inst =>
      let so := fit_instance core0 fit inst
      ({ st0 with core := so.core }, so.events,
        match so.out with
        | .ok _ => none
        | .error e => some e)

/-- GridSearch.Fitness.__call__: count the call, return -inf without any
evaluation while within the checkpointed range, otherwise resolve and
evaluate, record the fit, update the best fit and cube, write a checkpoint
record, and save grid results at the configured cadence.  FitException is
caught and scored -inf; any other exception propagates. -/
def gridCall (m : ModelMapper) (fit : ModelInstance → FitOutcome)
    (g : GridFitness) (cube : List ℚ) :
    Except RunError Score × GridFitness × List SideEffect :=
  let g1 : GridFitness := { g with total_calls := g.total_calls + 1 }
  if g1.total_calls ≤ g1.checkpoint_count then
    (.ok .negInf, g1, [])
  else
    match m.instance_from_unit_vector cube with
    | .error _ => (.error .otherException, g1, [])
    | .ok inst =>
      let so := fit_instance g1.core fit inst
      match so.out with
      | .error .fitException => (.ok .negInf, { g1 with core := so.core }, so.events)
      | .error .otherException =>
        (.error .otherException, { g1 with core := so.core }, so.events)
      | .ok ℓ =>
        let g2 : GridFitness :=
          { g1 with core := so.core, all_fits := dictSet g1.all_fits cube ℓ }
        let g3 : GridFitness :=
          if g2.best_fit.lt ℓ then { g2 with best_fit := ℓ, best_cube := some cube }
          else g2
        let sr := g3.should_save_grid_results.call
        let g4 : GridFitness := { g3 with should_save_grid_results := sr.2 }
        let evs := so.events
          ++ [SideEffect.checkpoint g3.total_calls g3.best_fit g3.best_cube]
          ++ (if sr.1 then [SideEffect.gridResults] else [])
        (.ok ℓ, g4, evs)

/-- Iterate gridCall over a list of cubes, collecting the per-call returns
and all events. -/
def gridCalls (m : ModelMapper) (fit : ModelInstance → FitOutcome)
    (g : GridFitness) : List (List ℚ) →
    List (Except RunError Score) × GridFitness × List SideEffect
  | [] => ([], g, [])
  | cube :: rest =>
    let one := gridCall m fit g cube
    let more := gridCalls m fit one.2.1 rest
    (one.1 :: more.1, more.2.1, one.2.2 ++ more.2.2)

/-- The persisted grid-search Checkpoint Record: calls completed, best score,
best vector, step size, parameter count. -/
structure CheckpointRecord where
  count : ℕ
  fit : Score
  cube : Option (List ℚ)
  step_size : ℚ
  prior_count : ℕ
deriving DecidableEq, Repr

/-- CheckpointException causes: dimension mismatch or step-size mismatch. -/
inductive CheckpointError where
  | dims
  | step
deriving DecidableEq, Repr

/-- The checkpoint-validation prefix of GridSearch.fit: with no record the
run starts fresh (zero calls, -inf best, no best cube); with a record, prior
count and then step size are validated (mismatch fails fast) and the record
seeds the resumed state. -/
def gridFitSetup (m : ModelMapper) (step_size : ℚ)
    (record : Option CheckpointRecord) :
    Except CheckpointError (ℕ × Score × Option (List ℚ)) :=
  match record with
  | none => .ok (0, .negInf, none)
  | some r0 =>
    if r0.prior_count ≠ m.prior_count then .error .dims
    else if r0.step_size ≠ step_size then .error .step
    else .ok (r0.count, r0.fit, r0.cube)

/-- GridSearch.fit up to the construction of the fitness adapter: validate
the checkpoint, then build the fitness adapter seeded from it.  Everything
after this point is the external grid enumerator calling the adapter. -/
def gridFit (m : ModelMapper) (fit : ModelInstance → FitOutcome)
    (constant : ModelInstance) (li vi bi gi : ℤ) (step_size : ℚ)
    (record : Option CheckpointRecord) :
    Except CheckpointError (GridFitness × List SideEffect × Option RunError) :=
  (gridFitSetup m step_size record).map (fun seed =>
    mkGridFitness m fit constant li vi bi gi seed.1 seed.2.1 seed.2.2)

/-- Composing two zips over the same left list fuses into one zip. -/
theorem af_zipWith_zipWith {α β γ δ : Type} (f : α → γ → δ) (g : α → β → γ) :
    ∀ (l : List α) (u : List β),
      List.zipWith f l (List.zipWith g l u) =
        List.zipWith (fun a b => f a (g a b)) l u
  | [], _ => rfl
  | _ :: _, [] => rfl
  | a :: l, b :: u => by
    simp only [List.zipWith]
    exact congrArg _ (af_zipWith_zipWith f g l u)

/-- Elementwise description of a zip. -/
theorem af_zipWith_get? {α β γ : Type} (f : α → β → γ) :
    ∀ (l : List α) (u : List β) (i : ℕ) (a : α) (b : β),
      l.get? i = some a → u.get? i = some b →
      (List.zipWith f l u).get? i = some (f a b)
  | [], _, _, _, _, h, _ => by simp at h
  | _ :: _, [], _, _, _, _, h => by simp at h
  | a :: l, b :: u, 0, x, y, ha, hb => by
    simp only [List.get?, Option.some.injEq] at ha hb
    subst ha
    subst hb
    rfl
  | a :: l, b :: u, i + 1, x, y, ha, hb => by
    simpa [List.zipWith] using af_zipWith_get? f l u i x y ha hb

/-- C6: for every unit vector of the parameter-space length, converting to a
physical vector and resolving it gives exactly the same Instance Graph as
resolving the unit vector directly. -/
theorem c6_unit_physical_roundtrip (m : ModelMapper) (u : List ℚ)
    (_h : u.length = m.prior_count) :
    m.instance_from_physical_vector (m.physical_vector_from_hypercube_vector u) =
      m.instance_from_unit_vector u := by
  unfold ModelMapper.instance_from_physical_vector
    ModelMapper.instance_from_unit_vector
    ModelMapper.physical_vector_from_hypercube_vector
  rw [af_zipWith_zipWith]

/-- A uniform prior with id 1 on the unit interval, for concrete checks. -/
def p1w : Prior := UniformPrior 1 0 1

/-- A uniform prior with id 2 on (0, 2), for concrete checks. -/
def p2w : Prior := UniformPrior 2 0 2

/-- A concrete two-parameter space. -/
def m6w : ModelMapper :=
  ⟨[("one", ⟨[("a", .prior p1w), ("b", .prior p2w)]⟩)], []⟩

/-- C6 witness: the round trip evaluated on a concrete two-parameter space
and the unit vector (1/2, 1/4). -/
theorem c6_witness :
    ([(1 : ℚ)/2, 1/4].length = m6w.prior_count) ∧
      m6w.instance_from_physical_vector
        (m6w.physical_vector_from_hypercube_vector [(1 : ℚ)/2, 1/4]) =
        m6w.instance_from_unit_vector [(1 : ℚ)/2, 1/4] :=
  ⟨rfl, c6_unit_physical_roundtrip m6w [(1 : ℚ)/2, 1/4] rfl⟩

/-- C3 (corrected): the unit-to-physical conversion performs no length
validation and raises no error: it returns the elementwise conversion
truncated to the shorter of the ordered priors and the input vector. -/
theorem c3_truncating_conversion (m : ModelMapper) (v : List ℚ) :
    (m.physical_vector_from_hypercube_vector v).length = min m.prior_count v.length ∧
    (∀ i t x, m.prior_tuples_ordered_by_id.get? i = some t → v.get? i = some x →
      (m.physical_vector_from_hypercube_vector v).get? i = some (t.2.value_for x)) := by
  constructor
  · simpa [ModelMapper.physical_vector_from_hypercube_vector,
      ModelMapper.prior_count] using
      List.length_zipWith (fun (t : String × Prior) u => t.2.value_for u)
        m.prior_tuples_ordered_by_id v
  · intro i t x ht hx
    exact af_zipWith_get? _ m.prior_tuples_ordered_by_id v i t x ht hx

/-- A one-parameter space used to exercise length mismatches. -/
def mc3 : ModelMapper := ⟨[("m", ⟨[("a", .prior p1w)]⟩)], []⟩

/-- C3 counterexample: a space with one parameter accepts a unit vector of
length 0 and one of length 2 without failing, returning a truncated vector
instead of raising DimensionError. -/
theorem c3_counterexample :
    mc3.prior_count = 1 ∧
    mc3.physical_vector_from_hypercube_vector [] = [] ∧
    mc3.physical_vector_from_hypercube_vector [(3 : ℚ)/10, 7/10] = [(3 : ℚ)/10] := by
  refine ⟨rfl, rfl, ?_⟩
  show [(0 : ℚ) + 3/10 * (1 - 0)] = [(3 : ℚ)/10]
  norm_num

/-- C3 witness: the truncation theorem evaluated on the one-parameter space
with an over-long input vector. -/
theorem c3_witness :
    (mc3.physical_vector_from_hypercube_vector [(3 : ℚ)/10, 7/10]).length =
      min mc3.prior_count 2 ∧
    (mc3.physical_vector_from_hypercube_vector [(3 : ℚ)/10, 7/10]).get? 0 =
      some (p1w.value_for ((3 : ℚ)/10)) :=
  ⟨(c3_truncating_conversion mc3 [(3 : ℚ)/10, 7/10]).1,
    (c3_truncating_conversion mc3 [(3 : ℚ)/10, 7/10]).2 0 ("a", p1w) ((3 : ℚ)/10)
      rfl rfl⟩

/-- A fixed stand-in for the Gaussian family transform (external to src/). -/
def gvf0 : ℚ → ℚ → ℚ → ℚ → ℚ → ℚ := fun mean sigma _ _ u => mean + sigma * u

/-- A width configuration answering absolute width 1 for every name. -/
def wc0 : String → WidthKind × ℚ := fun _ => (.absolute, 1)

/-- A limit configuration answering (0, 1) for every name. -/
def lc0 : String → ℚ × ℚ := fun _ => (0, 1)

/-- The empty parameter space. -/
def mEmpty : ModelMapper := ⟨[], []⟩

/-- C8 (amended): on a space with at least one prior and a non-empty summary
list, supplying both an absolute and a relative width fails with the
PriorException raised by the mutual-exclusion check. -/
theorem c8_both_widths_error (m : ModelMapper) (gvf : ℚ → ℚ → ℚ → ℚ → ℚ → ℚ)
    (wc : String → WidthKind × ℚ) (lc : String → ℚ × ℚ) (fresh : ℕ)
    (tuples : List (ℚ × ℚ)) (av rv : ℚ)
    (hc : 1 ≤ m.prior_count) (ht : tuples ≠ []) :
    m.mapper_from_gaussian_tuples gvf wc lc fresh tuples (some av) (some rv) =
      .error .priorBoth := by
  obtain ⟨t, rest, hrest⟩ :
      ∃ t rest, m.prior_tuples_ordered_by_id = t :: rest := by
    cases hpts : m.prior_tuples_ordered_by_id with
    | nil =>
      rw [ModelMapper.prior_count, hpts] at hc
      simp at hc
    | cons t rest => exact ⟨t, rest, rfl⟩
  obtain ⟨tp, trest, htp⟩ : ∃ tp trest, tuples = tp :: trest := by
    cases tuples with
    | nil => exact absurd rfl ht
    | cons tp trest => exact ⟨tp, trest, rfl⟩
  rw [ModelMapper.mapper_from_gaussian_tuples, hrest, htp]
  rfl

/-- A one-parameter space for refinement checks. -/
def mc8 : ModelMapper := ⟨[("m", ⟨[("a", .prior p1w)]⟩)], []⟩

/-- C8 witness: the mutual-exclusion failure on a concrete one-prior space
with a = 2 and r = 1. -/
theorem c8_witness :
    1 ≤ mc8.prior_count ∧
      mc8.mapper_from_gaussian_tuples gvf0 wc0 lc0 10 [(0, 0)] (some 2) (some 1) =
        .error .priorBoth :=
  ⟨Nat.le_refl 1,
    c8_both_widths_error mc8 gvf0 wc0 lc0 10 [(0, 0)] 2 1 (Nat.le_refl 1)
      (by simp)⟩

/-- C8 counterexample: on a space with zero priors, a refinement call that
supplies both widths returns a new space and raises nothing, because the
mutual-exclusion check sits inside the per-prior loop. -/
theorem c8_counterexample :
    mEmpty.prior_count = 0 ∧
      mEmpty.mapper_from_gaussian_tuples gvf0 wc0 lc0 10 [] (some 2) (some 1) =
        .ok mEmpty := by
  exact ⟨rfl, rfl⟩

/-- C10: on a space with zero distinct priors, refinement with both widths
supplied (indeed with any widths) succeeds and returns a new space: the
mutual-exclusion check is never reached. -/
theorem c10_empty_space_no_error (m : ModelMapper)
    (gvf : ℚ → ℚ → ℚ → ℚ → ℚ → ℚ) (wc : String → WidthKind × ℚ)
    (lc : String → ℚ × ℚ) (fresh : ℕ) (tuples : List (ℚ × ℚ))
    (a r : Option ℚ) (h : m.prior_count = 0) :
    ∃ m2, m.mapper_from_gaussian_tuples gvf wc lc fresh tuples a r = .ok m2 := by
  have hnil : m.prior_tuples_ordered_by_id = [] :=
    List.length_eq_zero.mp h
  refine ⟨m.mapper_from_prior_arguments [], ?_⟩
  rw [ModelMapper.mapper_from_gaussian_tuples, hnil]
  rfl

/-- C10 witness: the empty space refined with a = 2 and r = 1 returns a
space. -/
theorem c10_witness :
    mEmpty.prior_count = 0 ∧
      ∃ m2, mEmpty.mapper_from_gaussian_tuples gvf0 wc0 lc0 10 [] (some 2)
        (some 1) = .ok m2 :=
  ⟨rfl, c10_empty_space_no_error mEmpty gvf0 wc0 lc0 10 [] (some 2) (some 1) rfl⟩

/-- No score is strictly below negative infinity. -/
theorem Score.lt_negInf (s : Score) : s.lt .negInf = false := by
  cases s <;> rfl

/-- C5: in every fitness adapter, a FitException from the likelihood function
is caught locally and the call is scored negative infinity (DownhillSimplex
returns its minimization objective -2 times that, i.e. +inf) with the run
state unchanged, while any other exception propagates out of the adapter. -/
theorem c5_fit_exception_handling (m : ModelMapper) (core : FitnessCore)
    (st : MNFitness) (g : GridFitness) (v cube gc : List ℚ)
    (inst instMN instG : ModelInstance)
    (fitF fitO : ModelInstance → FitOutcome)
    (hF : ∀ x, fitF x = .fitErr) (hO : ∀ x, fitO x = .otherErr) :
    (m.instance_from_physical_vector v = .ok inst →
      dsCall m fitF core v =
        .ok (negTwo .negInf, core, [.evaluate (inst.add core.constant)])) ∧
    (m.instance_from_physical_vector v = .ok inst →
      dsCall m fitO core v = .error .otherException) ∧
    (m.instance_from_physical_vector cube = .ok instMN →
      mnCall m fitF st cube =
        .ok (.negInf, st, [.evaluate (instMN.add st.core.constant)])) ∧
    (m.instance_from_physical_vector cube = .ok instMN →
      mnCall m fitO st cube = .error .otherException) ∧
    (g.checkpoint_count < g.total_calls + 1 →
      m.instance_from_unit_vector gc = .ok instG →
      gridCall m fitF g gc =
        (.ok .negInf, { g with total_calls := g.total_calls + 1 },
          [.evaluate (instG.add g.core.constant)])) ∧
    (g.checkpoint_count < g.total_calls + 1 →
      m.instance_from_unit_vector gc = .ok instG →
      gridCall m fitO g gc =
        (.error .otherException, { g with total_calls := g.total_calls + 1 },
          [.evaluate (instG.add g.core.constant)])) := by
  refine ⟨?_, ?_, ?_, ?_, ?_, ?_⟩
  · intro hres
    rw [dsCall, hres]
    simp [fit_instance, hF]
  · intro hres
    rw [dsCall, hres]
    simp [fit_instance, hO]
  · intro hres
    rw [mnCall, hres]
    simp [fit_instance, hF, Score.lt_negInf]
  · intro hres
    rw [mnCall, hres]
    simp [fit_instance, hO]
  · intro hskip hres
    rw [gridCall]
    simp only [if_neg (by omega : ¬ (g.total_calls + 1 ≤ g.checkpoint_count))]
    rw [hres]
    simp [fit_instance, hF]
  · intro hskip hres
    rw [gridCall]
    simp only [if_neg (by omega : ¬ (g.total_calls + 1 ≤ g.checkpoint_count))]
    rw [hres]
    simp [fit_instance, hO]

/-- A concrete empty-constant fitness core with all side effects disabled. -/
def core5 : FitnessCore := initFitnessCore ⟨[], []⟩ (-1) (-1) (-1)

/-- A concrete MultiNest fitness state. -/
def st5 : MNFitness := ⟨core5, 0, 10⟩

/-- A concrete GridSearch fitness state with nothing checkpointed. -/
def g5 : GridFitness := ⟨core5, 0, 0, .negInf, none, [], ⟨0, -1⟩⟩

/-- An analysis whose likelihood always raises FitException. -/
def fitAlwaysFitErr : ModelInstance → FitOutcome := fun _ => .fitErr

/-- An analysis whose likelihood always raises a non-fit exception. -/
def fitAlwaysOtherErr : ModelInstance → FitOutcome := fun _ => .otherErr

/-- The instance resolved from the vector (1/2) on the one-parameter space. -/
def inst5 : ModelInstance := ⟨[("m", [("a", (1 : ℚ)/2)])], []⟩

/-- C5 witness: the exception policy evaluated on a concrete one-parameter
space and the physical vector (1/2). -/
theorem c5_witness :
    (dsCall mc3 fitAlwaysFitErr core5 [(1 : ℚ)/2] =
      .ok (negTwo .negInf, core5, [.evaluate (inst5.add core5.constant)])) ∧
    (dsCall mc3 fitAlwaysOtherErr core5 [(1 : ℚ)/2] = .error .otherException) ∧
    (mnCall mc3 fitAlwaysFitErr st5 [(1 : ℚ)/2] =
      .ok (.negInf, st5, [.evaluate (inst5.add st5.core.constant)])) ∧
    (mnCall mc3 fitAlwaysOtherErr st5 [(1 : ℚ)/2] = .error .otherException) ∧
    (gridCall mc3 fitAlwaysFitErr g5 [(1 : ℚ)/2] =
      (.ok .negInf, { g5 with total_calls := g5.total_calls + 1 },
        [.evaluate (inst5.add g5.core.constant)])) ∧
    (gridCall mc3 fitAlwaysOtherErr g5 [(1 : ℚ)/2] =
      (.error .otherException, { g5 with total_calls := g5.total_calls + 1 },
        [.evaluate (inst5.add g5.core.constant)])) := by
  have hres : mc3.instance_from_physical_vector [(1 : ℚ)/2] = .ok inst5 := rfl
  have hresu : mc3.instance_from_unit_vector [(1 : ℚ)/2] = .ok inst5 := by
    show mc3.instance_for_arguments [(1, (0 : ℚ) + 1/2 * (1 - 0))] = .ok inst5
    norm_num
    rfl
  have h := c5_fit_exception_handling mc3 core5 st5 g5 [(1 : ℚ)/2] [(1 : ℚ)/2]
    [(1 : ℚ)/2] inst5 inst5 inst5 fitAlwaysFitErr fitAlwaysOtherErr
    (fun _ => rfl) (fun _ => rfl)
  exact ⟨h.1 hres, h.2.1 hres, h.2.2.1 hres, h.2.2.2.1 hres,
    h.2.2.2.2.1 (by decide) hresu, h.2.2.2.2.2 (by decide) hresu⟩

/-- Recogniser for likelihood-evaluation events. -/
def isEvalEvent : SideEffect → Bool
  | .evaluate _ => true
  | _ => false

/-- One fit_instance step performs exactly one likelihood evaluation, on the
instance merged with the constant, and that evaluation heads its event
list. -/
theorem fit_instance_one_eval (core : FitnessCore)
    (fit : ModelInstance → FitOutcome) (inst0 : ModelInstance) :
    (fit_instance core fit inst0).events.countP isEvalEvent = 1 ∧
    (fit_instance core fit inst0).events.head? =
      some (.evaluate (inst0.add core.constant)) := by
  rw [fit_instance]
  cases fit (inst0.add core.constant) with
  | fitErr => exact ⟨rfl, rfl⟩
  | otherErr => exact ⟨rfl, rfl⟩
  | ok ℓ =>
    constructor
    · simp only [List.countP_append]
      split
      · split <;> split <;> simp [isEvalEvent, List.countP_cons]
      · split <;> simp [isEvalEvent, List.countP_cons]
    · rfl

/-- C9: constructing a GridSearch fitness adapter with a checkpointed best
vector resolves it and evaluates the likelihood on it exactly once, before
the optimizer's first call, and leaves total_calls at zero. -/
theorem c9_resume_evaluates_best_cube_once (m : ModelMapper)
    (fitf : ModelInstance → FitOutcome) (constant : ModelInstance)
    (li vi bi gi : ℤ) (cc : ℕ) (bf : Score) (c : List ℚ)
    (inst : ModelInstance) (hres : m.instance_from_unit_vector c = .ok inst) :
    (mkGridFitness m fitf constant li vi bi gi cc bf (some c)).2.1.countP
      isEvalEvent = 1 ∧
    (mkGridFitness m fitf constant li vi bi gi cc bf (some c)).2.1.head? =
      some (.evaluate (inst.add constant)) ∧
    (mkGridFitness m fitf constant li vi bi gi cc bf (some c)).1.total_calls
      = 0 := by
  rw [mkGridFitness, hres]
  refine ⟨?_, ?_, rfl⟩
  · exact (fit_instance_one_eval (initFitnessCore constant li vi bi) fitf inst).1
  · exact (fit_instance_one_eval (initFitnessCore constant li vi bi) fitf inst).2

/-- An analysis with a constant finite likelihood. -/
def fitConstOne : ModelInstance → FitOutcome := fun _ => .ok (.val 1)

/-- C9 witness: constructing the adapter on the one-parameter space with
checkpointed best vector (1/2). -/
theorem c9_witness :
    (mkGridFitness mc3 fitConstOne ⟨[], []⟩ (-1) (-1) (-1) (-1) 5 (.val 1)
      (some [(1 : ℚ)/2])).2.1.countP isEvalEvent = 1 ∧
    (mkGridFitness mc3 fitConstOne ⟨[], []⟩ (-1) (-1) (-1) (-1) 5 (.val 1)
      (some [(1 : ℚ)/2])).2.1.head? =
      some (.evaluate (inst5.add ⟨[], []⟩)) ∧
    (mkGridFitness mc3 fitConstOne ⟨[], []⟩ (-1) (-1) (-1) (-1) 5 (.val 1)
      (some [(1 : ℚ)/2])).1.total_calls = 0 := by
  have hresu : mc3.instance_from_unit_vector [(1 : ℚ)/2] = .ok inst5 := by
    show mc3.instance_for_arguments [(1, (0 : ℚ) + 1/2 * (1 - 0))] = .ok inst5
    norm_num
    rfl
  exact c9_resume_evaluates_best_cube_once mc3 fitConstOne ⟨[], []⟩
    (-1) (-1) (-1) (-1) 5 (.val 1) [(1 : ℚ)/2] inst5 hresu

/-- The fields of the adapter state built by mkGridFitness: the seeds are
stored unchanged and the call counter starts at zero, whatever the
constructor's initial evaluation does. -/
theorem mkGridFitness_fields (m : ModelMapper)
    (fitf : ModelInstance → FitOutcome) (constant : ModelInstance)
    (li vi bi gi : ℤ) (cc : ℕ) (bf : Score) (bc : Option (List ℚ)) :
    (mkGridFitness m fitf constant li vi bi gi cc bf bc).1.checkpoint_count = cc ∧
    (mkGridFitness m fitf constant li vi bi gi cc bf bc).1.best_fit = bf ∧
    (mkGridFitness m fitf constant li vi bi gi cc bf bc).1.best_cube = bc ∧
    (mkGridFitness m fitf constant li vi bi gi cc bf bc).1.total_calls = 0 := by
  rw [mkGridFitness.eq_def]
  cases bc with
  | none => exact ⟨rfl, rfl, rfl, rfl⟩
  | some c =>
    dsimp only
    cases m.instance_from_unit_vector c with
    | error e => exact ⟨rfl, rfl, rfl, rfl⟩
    | ok inst => exact ⟨rfl, rfl, rfl, rfl⟩

/-- While within the checkpointed range, every grid-search call returns
negative infinity, triggers no event at all (in particular no likelihood
evaluation), and only advances the call counter. -/
theorem gridCalls_skip (m : ModelMapper) (fitf : ModelInstance → FitOutcome) :
    ∀ (cubes : List (List ℚ)) (g : GridFitness),
      g.total_calls + cubes.length ≤ g.checkpoint_count →
      gridCalls m fitf g cubes =
        (List.replicate cubes.length (.ok .negInf),
          { g with total_calls := g.total_calls + cubes.length }, [])
  | [], g, _ => by
    show ([], g, []) = ([], { g with total_calls := g.total_calls + 0 }, [])
    rfl
  | cube :: rest, g, h => by
    have hlen : (cube :: rest).length = rest.length + 1 := rfl
    have hle : g.total_calls + 1 ≤ g.checkpoint_count := by
      rw [hlen] at h
      omega
    have hone : gridCall m fitf g cube =
        (.ok .negInf, { g with total_calls := g.total_calls + 1 }, []) := by
      rw [gridCall]
      simp only [if_pos hle]
    have hrest := gridCalls_skip m fitf rest
      { g with total_calls := g.total_calls + 1 }
      (by simp only [hlen] at h; simp; omega)
    rw [gridCalls, hone, hrest]
    have harith : g.total_calls + 1 + rest.length =
        g.total_calls + (cube :: rest).length := by
      rw [hlen]; omega
    simp [harith, List.replicate_succ]

/-- C1: a persisted checkpoint whose parameter count disagrees with the
current space makes GridSearch.fit fail with CheckpointException before any
enumeration; a record matching both checks seeds the adapter's
checkpoint count, best score and best vector (rather than -inf), and the
first calls-completed adapter calls then return -inf without evaluating the
likelihood. -/
theorem c1_checkpoint_resume (m : ModelMapper)
    (fitf : ModelInstance → FitOutcome) (constant : ModelInstance)
    (li vi bi gi : ℤ) (step : ℚ) (r0 : CheckpointRecord) :
    (r0.prior_count ≠ m.prior_count →
      gridFit m fitf constant li vi bi gi step (some r0) = .error .dims) ∧
    (r0.prior_count = m.prior_count → r0.step_size = step →
      ∃ g evs er,
        gridFit m fitf constant li vi bi gi step (some r0) = .ok (g, evs, er) ∧
        g.checkpoint_count = r0.count ∧ g.best_fit = r0.fit ∧
        g.best_cube = r0.cube ∧ g.total_calls = 0) ∧
    (∀ (g : GridFitness) (cubes : List (List ℚ)),
      g.total_calls + cubes.length ≤ g.checkpoint_count →
      gridCalls m fitf g cubes =
        (List.replicate cubes.length (.ok .negInf),
          { g with total_calls := g.total_calls + cubes.length }, [])) := by
  refine ⟨?_, ?_, fun g cubes h => gridCalls_skip m fitf cubes g h⟩
  · intro hne
    rw [gridFit, gridFitSetup]
    simp only [if_pos hne]
    rfl
  · intro hpc hstep
    rw [gridFit, gridFitSetup]
    rw [if_neg (fun hcon => hcon hpc), if_neg (fun hcon => hcon hstep)]
    refine ⟨_, _, _, rfl, ?_⟩
    have h := mkGridFitness_fields m fitf constant li vi bi gi r0.count r0.fit
      r0.cube
    exact ⟨h.1, h.2.1, h.2.2.1, h.2.2.2⟩

/-- A uniform prior with id 3, for the three-parameter space. -/
def p3w : Prior := UniformPrior 3 0 1

/-- A concrete three-parameter space, incompatible with a two-parameter
checkpoint. -/
def m3w : ModelMapper :=
  ⟨[("one", ⟨[("a", .prior p1w), ("b", .prior p2w), ("c", .prior p3w)]⟩)], []⟩

/-- The spec's concrete checkpoint record: 5 calls done, best score -3.2,
best vector (0.1, 0.2), step 0.1, parameter count 2. -/
def rec1 : CheckpointRecord :=
  ⟨5, .val (-(16 : ℚ)/5), some [(1 : ℚ)/10, 2/10], (1 : ℚ)/10, 2⟩

/-- The adapter state seeded from rec1 on the two-parameter space. -/
def gSeed : GridFitness :=
  ⟨initFitnessCore ⟨[], []⟩ (-1) (-1) (-1), 0, 5, .val (-(16 : ℚ)/5),
    some [(1 : ℚ)/10, 2/10], [], ⟨0, -1⟩⟩

/-- Five enumeration points to be skipped on resume. -/
def cubes5 : List (List ℚ) :=
  [[0, 0], [0, (1 : ℚ)/10], [0, 2/10], [0, 3/10], [0, 4/10]]

/-- C1 witness: rec1 resumes the matching two-parameter run with the seeded
best score/vector, fails with the dimensions CheckpointException against the
three-parameter run, and the first five calls of the seeded adapter return
-inf with no evaluation events. -/
theorem c1_witness :
    (∃ g evs er,
      gridFit m6w fitConstOne ⟨[], []⟩ (-1) (-1) (-1) (-1) ((1 : ℚ)/10)
        (some rec1) = .ok (g, evs, er) ∧
      g.checkpoint_count = rec1.count ∧ g.best_fit = rec1.fit ∧
      g.best_cube = rec1.cube ∧ g.total_calls = 0) ∧
    (gridFit m3w fitConstOne ⟨[], []⟩ (-1) (-1) (-1) (-1) ((1 : ℚ)/10)
      (some rec1) = .error .dims) ∧
    (gridCalls m6w fitConstOne gSeed cubes5 =
      (List.replicate cubes5.length (.ok .negInf),
        { gSeed with total_calls := gSeed.total_calls + cubes5.length }, [])) := by
  refine ⟨?_, ?_, ?_⟩
  · exact (c1_checkpoint_resume m6w fitConstOne ⟨[], []⟩ (-1) (-1) (-1) (-1)
      ((1 : ℚ)/10) rec1).2.1 rfl rfl
  · exact (c1_checkpoint_resume m3w fitConstOne ⟨[], []⟩ (-1) (-1) (-1) (-1)
      ((1 : ℚ)/10) rec1).1 (by decide)
  · exact (c1_checkpoint_resume m6w fitConstOne ⟨[], []⟩ (-1) (-1) (-1) (-1)
      ((1 : ℚ)/10) rec1).2.2 gSeed cubes5 (by decide)

/-- Casting a natural to an integer, testing equality with zero via boolean
equality agrees with deciding equality on the natural. -/
theorem beq_int_natCast_zero (k : ℕ) : ((k : ℤ) == 0) = decide (k = 0) := by
  by_cases h : k = 0
  · subst h
    rfl
  · have h2 : ((k : ℤ) ≠ 0) := by exact_mod_cast h
    simp [h, h2]

/-- An interval-10 counter fires exactly on counts that are multiples of
ten. -/
theorem counterCall_10 (c : ℕ) :
    (IntervalCounter.call ⟨c, 10⟩) = (decide ((c + 1) % 10 = 0), ⟨c + 1, 10⟩) := by
  have hne : ¬((⟨c, 10⟩ : IntervalCounter).interval = -1) := by
    show ¬((10 : ℤ) = -1)
    decide
  rw [IntervalCounter.call, if_neg hne]
  dsimp only
  have hcast : ((c + 1 : ℕ) : ℤ) % (10 : ℤ) = (((c + 1) % 10 : ℕ) : ℤ) := by
    omega
  rw [hcast, beq_int_natCast_zero]

/-- A counter call never changes the interval. -/
theorem call_keeps_interval (x : IntervalCounter) :
    ∃ n, x.call.2 = ⟨n, x.interval⟩ := by
  rw [IntervalCounter.call]
  split
  · exact ⟨x.count, rfl⟩
  · exact ⟨x.count + 1, rfl⟩

/-- One fit_instance step with visualise interval 10 and a successful
constant-score analysis: the visualize side effect fires exactly when the
score improves the best and the improving-call count reaches a multiple of
ten, and the state evolves by taking the max score and advancing the
visualise count only on improvement. -/
theorem fit_instance_step10 (constant i0 : ModelInstance) (mx : Score)
    (res : Option (ModelInstance × Score)) (lcnt : ℕ) (li : ℤ) (c bcnt : ℕ)
    (bi : ℤ) (ℓ : Score) :
    hasVisualize (fit_instance ⟨constant, mx, res, ⟨lcnt, li⟩, ⟨c, 10⟩,
        ⟨bcnt, bi⟩⟩ (fun _ => FitOutcome.ok ℓ) i0).events =
      (Score.lt mx ℓ && decide ((c + 1) % 10 = 0)) ∧
    ∃ res2 bcnt2,
      (fit_instance ⟨constant, mx, res, ⟨lcnt, li⟩, ⟨c, 10⟩, ⟨bcnt, bi⟩⟩
          (fun _ => FitOutcome.ok ℓ) i0).core =
        ⟨constant, Score.max mx ℓ, res2, ⟨lcnt, li⟩,
          ⟨if Score.lt mx ℓ then c + 1 else c, 10⟩, ⟨bcnt2, bi⟩⟩ := by
  rw [fit_instance]
  dsimp only
  cases himp : Score.lt mx ℓ with
  | true =>
    rw [if_pos rfl] at *
    dsimp only
    rw [counterCall_10]
    dsimp only
    obtain ⟨n2, hb⟩ := call_keeps_interval ⟨bcnt, bi⟩
    rw [hb]
    constructor
    · cases hd : decide ((c + 1) % 10 = 0) <;>
        cases ((⟨bcnt, bi⟩ : IntervalCounter).call.1) <;>
        simp [hasVisualize, hd]
    · refine ⟨some (i0.add constant, ℓ), n2, ?_⟩
      rw [Score.max, if_pos himp, if_pos rfl]
  | false =>
    rw [if_neg (by simp [himp])]
    dsimp only
    obtain ⟨n2, hb⟩ := call_keeps_interval ⟨bcnt, bi⟩
    rw [hb]
    constructor
    · cases ((⟨bcnt, bi⟩ : IntervalCounter).call.1) <;> simp [hasVisualize]
    · refine ⟨res, n2, ?_⟩
      rw [Score.max, if_neg (by simp [himp]), if_neg (by simp [himp])]

/-- Characterization of visualize firing for a visualise-interval-10 counter
from an arbitrary core state. -/
theorem visFlags_char10 :
    ∀ (scores : List Score) (constant : ModelInstance) (mx : Score)
      (res : Option (ModelInstance × Score)) (lcnt : ℕ) (li : ℤ)
      (c bcnt : ℕ) (bi : ℤ),
      visFlags ⟨constant, mx, res, ⟨lcnt, li⟩, ⟨c, 10⟩, ⟨bcnt, bi⟩⟩ scores =
        List.zipWith (fun imp cnt => imp && decide (cnt % 10 = 0))
          (improveFlags mx scores)
          (runningCounts c (improveFlags mx scores))
  | [], _, _, _, _, _, _, _, _ => rfl
  | ℓ :: rest, constant, mx, res, lcnt, li, c, bcnt, bi => by
    rw [visFlags]
    obtain ⟨hvis, res2, bcnt2, hcore⟩ :=
      fit_instance_step10 constant ⟨[], []⟩ mx res lcnt li c bcnt bi ℓ
    rw [hvis, hcore]
    rw [visFlags_char10 rest constant (Score.max mx ℓ) res2 lcnt
      li (if Score.lt mx ℓ then c + 1 else c) bcnt2 bi]
    rw [improveFlags, runningCounts]
    cases hlt : Score.lt mx ℓ with
    | true => simp [List.zipWith, hlt]
    | false => simp [List.zipWith, hlt]

/-- C2 (amended): for a run started with visualise interval 10, the
visualize side effect fires exactly on calls whose likelihood strictly
improves the best seen so far and which are the n-th such improving call
with n a multiple of 10; it never fires on a non-improving call, whatever
its position. -/
theorem c2_visualize_on_improving_multiples (constant : ModelInstance)
    (li bi : ℤ) (scores : List Score) :
    visFlags (initFitnessCore constant li 10 bi) scores =
      List.zipWith (fun imp cnt => imp && decide (cnt % 10 = 0))
        (improveFlags .negInf scores)
        (runningCounts 0 (improveFlags .negInf scores)) :=
  visFlags_char10 scores constant .negInf none 0 li 0 0 bi

/-- C2 counterexample: with visualise interval 10, ten calls at constant
likelihood 0 never fire the visualize side effect (in particular not on call
10, although the claim says calls 10, 20, ... always fire); and a run whose
tenth improving call is call 11 fires on call 11, which is not a multiple of
ten. -/
theorem c2_counterexample :
    (visFlags (initFitnessCore ⟨[], []⟩ (-1) 10 (-1))
      (List.replicate 10 (Score.val 0))).get? 9 = some false ∧
    (visFlags (initFitnessCore ⟨[], []⟩ (-1) 10 (-1))
      [.val 1, .val 2, .val 3, .val 4, .val 5, .val 6, .val 7, .val 8,
        .val 9, .val 9, .val 10]).get? 10 = some true := by
  exact ⟨by decide, by decide⟩

/-- The creation ids of a prior-tuple list. -/
def keyIds (l : List (String × Prior)) : List ℕ :=
  l.map (fun t => t.2.id)

/-- A dict insertion keeps the key multiset untouched when the key already
exists and appends it otherwise. -/
theorem keyIds_dictInsert (acc : List (String × Prior)) (t : String × Prior) :
    keyIds (dictInsert acc t) =
      if t.2.id ∈ keyIds acc then keyIds acc else keyIds acc ++ [t.2.id] := by
  rw [dictInsert]
  by_cases h : t.2.id ∈ keyIds acc
  · have hany : (acc.any (fun u => u.2.id == t.2.id)) = true := by
      rw [List.any_eq_true]
      obtain ⟨u, hu, hue⟩ := List.mem_map.mp h
      exact ⟨u, hu, by simp [hue]⟩
    rw [if_pos hany, if_pos h]
    rw [keyIds, List.map_map]
    refine List.map_congr_left (fun u _ => ?_)
    by_cases hu2 : (u.2.id == t.2.id) = true
    · simp only [Function.comp_apply, if_pos hu2]
      exact (beq_iff_eq.mp hu2).symm
    · simp only [Function.comp_apply, if_neg hu2]
  · have hany : (acc.any (fun u => u.2.id == t.2.id)) = false := by
      rw [List.any_eq_false]
      intro u hu
      intro hcon
      exact h (List.mem_map.mpr ⟨u, hu, beq_iff_eq.mp hcon⟩)
    rw [hany, if_neg h]
    simp [keyIds]

/-- Folding dict insertions keeps the key list duplicate-free and makes its
membership the union of the accumulator's and the input's keys. -/
theorem dedup_keys_nodup_mem :
    ∀ (l acc : List (String × Prior)), (keyIds acc).Nodup →
      (keyIds (l.foldl dictInsert acc)).Nodup ∧
      (∀ x, x ∈ keyIds (l.foldl dictInsert acc) ↔
        x ∈ keyIds acc ∨ x ∈ keyIds l)
  | [], acc, h => ⟨h, fun x => by simp [keyIds]⟩
  | t :: l, acc, h => by
    rw [List.foldl_cons]
    by_cases hmem : t.2.id ∈ keyIds acc
    · have hk : keyIds (dictInsert acc t) = keyIds acc := by
        rw [keyIds_dictInsert, if_pos hmem]
      have ih := dedup_keys_nodup_mem l (dictInsert acc t) (by rw [hk]; exact h)
      refine ⟨ih.1, fun x => ?_⟩
      rw [ih.2 x, hk]
      constructor
      · intro hx
        rcases hx with hx | hx
        · exact Or.inl hx
        · exact Or.inr (by simp [keyIds, List.mem_cons]; right; simpa [keyIds] using hx)
      · intro hx
        rcases hx with hx | hx
        · exact Or.inl hx
        · rcases (by simpa [keyIds, List.mem_cons] using hx :
            x = t.2.id ∨ x ∈ keyIds l) with hx2 | hx2
          · exact Or.inl (hx2 ▸ hmem)
          · exact Or.inr hx2
    · have hk : keyIds (dictInsert acc t) = keyIds acc ++ [t.2.id] := by
        rw [keyIds_dictInsert, if_neg hmem]
      have hnodup2 : (keyIds (dictInsert acc t)).Nodup := by
        rw [hk]
        simp [List.nodup_append, h, hmem]
      have ih := dedup_keys_nodup_mem l (dictInsert acc t) hnodup2
      refine ⟨ih.1, fun x => ?_⟩
      rw [ih.2 x, hk]
      constructor
      · intro hx
        rcases hx with hx | hx
        · rcases List.mem_append.mp hx with hx2 | hx2
          · exact Or.inl hx2
          · simp only [List.mem_singleton] at hx2
            exact Or.inr (by simp [keyIds, hx2])
        · exact Or.inr (by simp [keyIds, List.mem_cons]; right; simpa [keyIds] using hx)
      · intro hx
        rcases hx with hx | hx
        · exact Or.inl (List.mem_append.mpr (Or.inl hx))
        · rcases (by simpa [keyIds, List.mem_cons] using hx :
            x = t.2.id ∨ x ∈ keyIds l) with hx2 | hx2
          · exact Or.inl (List.mem_append.mpr (Or.inr (by simp [hx2])))
          · exact Or.inr hx2

/-- Sorted insertion permutes to a cons. -/
theorem insertById_perm (t : String × Prior) :
    ∀ l : List (String × Prior), (insertById t l).Perm (t :: l)
  | [] => List.Perm.refl _
  | u :: rest => by
    rw [insertById]
    split
    · exact List.Perm.refl _
    · exact ((insertById_perm t rest).cons u).trans (List.Perm.swap t u rest)

/-- Insertion sort permutes its input. -/
theorem sortById_perm : ∀ l : List (String × Prior), (sortById l).Perm l
  | [] => List.Perm.refl _
  | x :: xs => by
    rw [sortById, List.foldr_cons]
    exact (insertById_perm x _).trans ((sortById_perm xs).cons x)

/-- prior_count is the number of distinct creation ids reachable in the
tree. -/
theorem prior_count_eq_card (m : ModelMapper) :
    m.prior_count = m.allPriorIds.toFinset.card := by
  have hperm : (sortById m.prior_tuples).Perm m.prior_tuples := sortById_perm _
  have hdedup := dedup_keys_nodup_mem m.all_prior_tuples [] (by simp [keyIds])
  have hlen : m.prior_count = (keyIds m.prior_tuples).length := by
    rw [ModelMapper.prior_count, ModelMapper.prior_tuples_ordered_by_id,
      hperm.length_eq, keyIds, List.length_map]
  have hnodup : (keyIds m.prior_tuples).Nodup := hdedup.1
  have hset : (keyIds m.prior_tuples).toFinset = m.allPriorIds.toFinset := by
    ext x
    simp only [List.mem_toFinset]
    rw [show (m.prior_tuples : List (String × Prior)) =
      m.all_prior_tuples.foldl dictInsert [] from rfl]
    rw [hdedup.2 x]
    simp [keyIds, ModelMapper.allPriorIds]
  rw [hlen, ← List.toFinset_card_of_nodup hnodup, hset]

/-- Pulling the head model out of allPriorIds. -/
theorem allPriorIds_cons (nm : String) (pm : PriorModel)
    (ms : List (String × PriorModel)) (ins : List (String × ℚ)) :
    ModelMapper.allPriorIds ⟨(nm, pm) :: ms, ins⟩ =
      keyIds pm.prior_tuples ++ ModelMapper.allPriorIds ⟨ms, ins⟩ := by
  simp [ModelMapper.allPriorIds, ModelMapper.all_prior_tuples, keyIds]

/-- Rebinding field j of a field list splits its id sequence at the old
prior's occurrence and replaces it by the new prior's id. -/
theorem fields_decomp :
    ∀ (fs : List (String × FieldValue)) (j : ℕ) (fname : String) (p q : Prior),
      fs.get? j = some (fname, .prior p) →
      ∃ l1 l2, keyIds (PriorModel.prior_tuples ⟨fs⟩) = l1 ++ p.id :: l2 ∧
        keyIds (PriorModel.prior_tuples ⟨setFields q fs j⟩) = l1 ++ q.id :: l2
  | [], j, _, _, _, h => by simp at h
  | f :: fs, 0, fname, p, q, h => by
    simp only [List.get?, Option.some.injEq] at h
    subst h
    refine ⟨[], keyIds (PriorModel.prior_tuples ⟨fs⟩), ?_, ?_⟩
    · simp [PriorModel.prior_tuples, List.filterMap_cons, keyIds]
    · rw [setFields]
      simp [PriorModel.prior_tuples, List.filterMap_cons, keyIds]
  | f :: fs, j + 1, fname, p, q, h => by
    simp only [List.get?] at h
    obtain ⟨l1, l2, hb, ha⟩ := fields_decomp fs j fname p q h
    rcases f with ⟨fn, fv⟩
    cases fv with
    | prior p0 =>
      refine ⟨p0.id :: l1, l2, ?_, ?_⟩
      · simp [PriorModel.prior_tuples, List.filterMap_cons, keyIds] at hb ⊢
        exact hb
      · rw [setFields]
        simp [PriorModel.prior_tuples, List.filterMap_cons, keyIds] at ha ⊢
        exact ha
    | const c0 =>
      refine ⟨l1, l2, ?_, ?_⟩
      · simp [PriorModel.prior_tuples, List.filterMap_cons, keyIds] at hb ⊢
        exact hb
      · rw [setFields]
        simp [PriorModel.prior_tuples, List.filterMap_cons, keyIds] at ha ⊢
        exact ha

/-- Rebinding one prior-holding field of one model splits the mapper's id
sequence at the old prior's occurrence and replaces it with the new id. -/
theorem models_decomp :
    ∀ (ms : List (String × PriorModel)) (ins : List (String × ℚ))
      (k j : ℕ) (fname : String) (p q : Prior),
      ((ms.get? k).bind (fun nmpm => nmpm.2.fields.get? j)) =
        some (fname, .prior p) →
      ∃ L1 L2, ModelMapper.allPriorIds ⟨ms, ins⟩ = L1 ++ p.id :: L2 ∧
        ModelMapper.allPriorIds ⟨setModels q ms k j, ins⟩ = L1 ++ q.id :: L2
  | [], _, k, _, _, _, _, h => by simp at h
  | mdl :: ms, ins, 0, j, fname, p, q, h => by
    simp only [List.get?, Option.some_bind] at h
    obtain ⟨l1, l2, hb, ha⟩ := fields_decomp mdl.2.fields j fname p q h
    refine ⟨l1, l2 ++ ModelMapper.allPriorIds ⟨ms, ins⟩, ?_, ?_⟩
    · rw [show (mdl :: ms : List (String × PriorModel)) = (mdl.1, mdl.2) :: ms
        from rfl, allPriorIds_cons]
      rw [show (mdl.2 : PriorModel) = ⟨mdl.2.fields⟩ from rfl] at hb ⊢
      rw [hb]
      simp
    · rw [setModels, allPriorIds_cons, ha]
      simp
  | mdl :: ms, ins, k + 1, j, fname, p, q, h => by
    simp only [List.get?] at h
    obtain ⟨L1, L2, hb, ha⟩ := models_decomp ms ins k j fname p q h
    refine ⟨keyIds mdl.2.prior_tuples ++ L1, L2, ?_, ?_⟩
    · rw [show (mdl :: ms : List (String × PriorModel)) = (mdl.1, mdl.2) :: ms
        from rfl, allPriorIds_cons, hb]
      simp
    · rw [setModels]
      rw [show ((mdl : String × PriorModel) :: setModels q ms k j) =
        (mdl.1, mdl.2) :: setModels q ms k j from rfl, allPriorIds_cons, ha]
      simp

/-- C7 (amended): the ordered distinct-prior list always has length
prior_count; tying a field to a Distribution already present elsewhere in
the tree never increases prior_count, and strictly decreases it exactly when
the overwritten field held the tree's only occurrence of its
Distribution. -/
theorem c7_sharing_count (m : ModelMapper) (k j : ℕ) (fname : String)
    (p q : Prior) (hf : m.fieldAt k j = some (fname, .prior p))
    (hq : q.id ∈ m.allPriorIds) (hne : q.id ≠ p.id) :
    m.prior_tuples_ordered_by_id.length = m.prior_count ∧
    (m.sharePriorAt k j q).prior_count ≤ m.prior_count ∧
    (m.allPriorIds.count p.id = 1 →
      (m.sharePriorAt k j q).prior_count < m.prior_count) := by
  obtain ⟨L1, L2, hb, ha⟩ := models_decomp m.models m.instances k j fname p q hf
  have hb2 : m.allPriorIds = L1 ++ p.id :: L2 := by
    rw [← hb]
  have ha2 : (m.sharePriorAt k j q).allPriorIds = L1 ++ q.id :: L2 := by
    rw [← ha]
    rfl
  have hqmem : q.id ∈ L1 ∨ q.id ∈ L2 := by
    rw [hb2] at hq
    rcases List.mem_append.mp hq with h1 | h1
    · exact Or.inl h1
    · rcases List.mem_cons.mp h1 with h2 | h2
      · exact absurd h2 hne
      · exact Or.inr h2
  have hsub : (L1 ++ q.id :: L2).toFinset ⊆ (L1 ++ p.id :: L2).toFinset := by
    intro x hx
    simp only [List.mem_toFinset, List.mem_append, List.mem_cons] at hx ⊢
    rcases hx with hx | hx | hx
    · exact Or.inl hx
    · subst hx
      rcases hqmem with h1 | h1
      · exact Or.inl h1
      · exact Or.inr (Or.inr h1)
    · exact Or.inr (Or.inr hx)
  refine ⟨rfl, ?_, ?_⟩
  · rw [prior_count_eq_card, prior_count_eq_card, hb2, ha2]
    exact Finset.card_le_card hsub
  · intro hcount
    rw [hb2] at hcount
    simp only [List.count_append, List.count_cons_self] at hcount
    have hL1 : ¬ p.id ∈ L1 := by
      intro hmem
      have := List.count_pos_iff.mpr hmem
      omega
    have hL2 : ¬ p.id ∈ L2 := by
      intro hmem
      have := List.count_pos_iff.mpr hmem
      omega
    rw [prior_count_eq_card, prior_count_eq_card, hb2, ha2]
    refine Finset.card_lt_card ?_
    rw [Finset.ssubset_iff_of_subset hsub]
    refine ⟨p.id, ?_, ?_⟩
    · simp [List.mem_toFinset]
    · simp only [List.mem_toFinset, List.mem_append, List.mem_cons]
      push_neg
      exact ⟨hL1, fun hcon => hne hcon.symm, hL2⟩

/-- A prior with creation id 1 shared by two fields below. -/
def pA : Prior := UniformPrior 1 0 1

/-- A prior with creation id 2. -/
def pB : Prior := UniformPrior 2 0 1

/-- A space where fields a and b already share pA and field c holds pB. -/
def mC7 : ModelMapper :=
  ⟨[("m", ⟨[("a", .prior pA), ("b", .prior pA), ("c", .prior pB)]⟩)], []⟩

/-- C7 counterexample: fields a and c hold distinct Distributions; rebinding
a to field c's Distribution leaves prior_count unchanged at 2 (it does not
strictly decrease), because the overwritten Distribution still occurs at
field b. -/
theorem c7_counterexample :
    mC7.fieldAt 0 0 = some ("a", .prior pA) ∧
    mC7.fieldAt 0 2 = some ("c", .prior pB) ∧
    pA.id ≠ pB.id ∧
    mC7.prior_count = 2 ∧
    (mC7.sharePriorAt 0 0 pB).prior_count = 2 :=
  ⟨rfl, rfl, by decide, rfl, rfl⟩

/-- A space where field a holds the only occurrence of pA and field c holds
pB. -/
def mC7b : ModelMapper :=
  ⟨[("m", ⟨[("a", .prior pA), ("c", .prior pB)]⟩)], []⟩

/-- C7 witness: on the two-field space, rebinding field a (the only holder
of pA) to pB does not increase and indeed strictly decreases prior_count. -/
theorem c7_witness :
    mC7b.prior_tuples_ordered_by_id.length = mC7b.prior_count ∧
    (mC7b.sharePriorAt 0 0 pB).prior_count ≤ mC7b.prior_count ∧
    (mC7b.sharePriorAt 0 0 pB).prior_count < mC7b.prior_count := by
  have h := c7_sharing_count mC7b 0 0 "a" pA pB rfl (by decide) (by decide)
  exact ⟨h.1, h.2.1, h.2.2 (by decide)⟩

/-- Indexed characterization of a successful refinement loop: entry n of the
arguments pairs the n-th ordered prior's id with a GaussianPrior whose mean
is the n-th summary mean and whose sigma is the max of the n-th empirical
width and the policy width. -/
theorem gaussArgsAux_get? (gvf : ℚ → ℚ → ℚ → ℚ → ℚ → ℚ)
    (wc : String → WidthKind × ℚ) (lc : String → ℚ × ℚ) (fresh : ℕ)
    (tuples : List (ℚ × ℚ)) (a r : Option ℚ) :
    ∀ (pts : List (String × Prior)) (i0 n : ℕ) (args : List (ℕ × Prior))
      (t : String × Prior),
      gaussArgsAux gvf wc lc fresh tuples a r pts i0 = .ok args →
      pts.get? n = some t →
      ∃ tp width,
        tuples.get? (i0 + n) = some tp ∧
        widthOf (policyChoice wc a r t.1).1 (policyChoice wc a r t.1).2 tp.1 =
          some width ∧
        args.get? n = some (t.2.id,
          mkGaussianPrior gvf (fresh + (i0 + n)) tp.1 (max tp.2 width)
            (limitsFor lc t).1 (limitsFor lc t).2)
  | [], _, n, _, _, _, hn => by simp at hn
  | t0 :: rest, i0, n, args, t, h, hn => by
    rw [gaussArgsAux] at h
    split at h
    · exact absurd h (by simp)
    · rename_i tp0 htp0
      split at h
      · exact absurd h (by simp)
      · split at h
        · exact absurd h (by simp)
        · rename_i hbo w hw
          cases hrec : gaussArgsAux gvf wc lc fresh tuples a r rest (i0 + 1) with
          | error e =>
            rw [hrec] at h
            exact absurd h (by simp [Except.map])
          | ok args2 =>
            rw [hrec] at h
            simp only [Except.map, Except.ok.injEq] at h
            cases n with
            | zero =>
              simp only [List.get?, Option.some.injEq] at hn
              subst hn
              refine ⟨tp0, w, ?_, ?_, ?_⟩
              · rw [Nat.add_zero]
                exact htp0
              · exact hw
              · rw [← h, Nat.add_zero]
                rfl
            | succ n2 =>
              simp only [List.get?] at hn
              obtain ⟨tp, w2, h1, h2, h3⟩ := gaussArgsAux_get? gvf wc lc fresh
                tuples a r rest (i0 + 1) n2 args2 t hrec hn
              refine ⟨tp, w2, ?_, h2, ?_⟩
              · rw [show i0 + (n2 + 1) = i0 + 1 + n2 by omega]
                exact h1
              · rw [← h]
                simp only [List.get?]
                rw [show i0 + (n2 + 1) = i0 + 1 + n2 by omega]
                exact h3

/-- The key list of a successful refinement loop is the id list of the
ordered priors it walked. -/
theorem gaussArgsAux_keys (gvf : ℚ → ℚ → ℚ → ℚ → ℚ → ℚ)
    (wc : String → WidthKind × ℚ) (lc : String → ℚ × ℚ) (fresh : ℕ)
    (tuples : List (ℚ × ℚ)) (a r : Option ℚ) :
    ∀ (pts : List (String × Prior)) (i0 : ℕ) (args : List (ℕ × Prior)),
      gaussArgsAux gvf wc lc fresh tuples a r pts i0 = .ok args →
      args.map Prod.fst = pts.map (fun t => t.2.id)
  | [], _, args, h => by
    simp only [gaussArgsAux, Except.ok.injEq] at h
    rw [← h]
    rfl
  | t0 :: rest, i0, args, h => by
    rw [gaussArgsAux] at h
    split at h
    · exact absurd h (by simp)
    · rename_i tp0 htp0
      split at h
      · exact absurd h (by simp)
      · split at h
        · exact absurd h (by simp)
        · rename_i hbo w hw
          cases hrec : gaussArgsAux gvf wc lc fresh tuples a r rest (i0 + 1) with
          | error e =>
            rw [hrec] at h
            exact absurd h (by simp [Except.map])
          | ok args2 =>
            rw [hrec] at h
            simp only [Except.map, Except.ok.injEq] at h
            rw [← h]
            simp only [List.map_cons]
            rw [gaussArgsAux_keys gvf wc lc fresh tuples a r rest (i0 + 1)
              args2 hrec]

/-- In an association list with duplicate-free keys, find? by the key of
entry i returns entry i. -/
theorem assoc_find?_of_nodup :
    ∀ (l : List (ℕ × Prior)) (i : ℕ) (key : ℕ) (v : Prior),
      (l.map Prod.fst).Nodup → l.get? i = some (key, v) →
      l.find? (fun x => x.1 == key) = some (key, v)
  | [], i, _, _, _, h => by simp at h
  | e :: l, 0, key, v, _, h => by
    simp only [List.get?, Option.some.injEq] at h
    subst h
    simp [List.find?]
  | e :: l, i + 1, key, v, hnd, h => by
    simp only [List.get?] at h
    have hkey : key ∈ l.map Prod.fst :=
      List.mem_map.mpr ⟨(key, v), List.get?_mem h, rfl⟩
    simp only [List.map_cons, List.nodup_cons] at hnd
    have hpe : (e.1 == key) = false := by
      simp only [beq_eq_false_iff_ne, ne_eq]
      intro hcon
      exact hnd.1 (hcon ▸ hkey)
    have hstep : List.find? (fun x : ℕ × Prior => x.1 == key) (e :: l) =
        List.find? (fun x : ℕ × Prior => x.1 == key) l := by
      rw [List.find?]
      simp [hpe]
    rw [hstep]
    exact assoc_find?_of_nodup l i key v hnd.2 h

/-- The ordered prior tuples carry duplicate-free creation ids. -/
theorem ordered_keys_nodup (m : ModelMapper) :
    (m.prior_tuples_ordered_by_id.map (fun t => t.2.id)).Nodup := by
  have hperm : ((sortById m.prior_tuples).map (fun t => t.2.id)).Perm
      (m.prior_tuples.map (fun t => t.2.id)) :=
    (sortById_perm m.prior_tuples).map _
  have hnd := (dedup_keys_nodup_mem m.all_prior_tuples [] (by simp [keyIds])).1
  exact hperm.nodup_iff.mpr hnd

/-- C4 (amended): for the i-th prior in distinct-distribution order,
refinement produces a Gaussian prior with sigma max(empirical_width, a)
under the absolute policy and max(empirical_width, r * mean) under the
relative policy; from means (zero empirical width) with only a = 2 the
sigma is 2 regardless of mean, while with only r = 1 the sigma is
max(0, mean) — equal to the mean only when the mean is nonnegative — and
the refined space holds that new prior at every field that held the old
one. -/
theorem c4_refined_sigma (gvf : ℚ → ℚ → ℚ → ℚ → ℚ → ℚ)
    (wc : String → WidthKind × ℚ) (lc : String → ℚ × ℚ) (fresh : ℕ)
    (m : ModelMapper) (tuples : List (ℚ × ℚ)) (i : ℕ) (t : String × Prior)
    (tp : ℚ × ℚ)
    (hord : m.prior_tuples_ordered_by_id.get? i = some t)
    (htp : tuples.get? i = some tp) :
    (∀ av args, gaussArgsAux gvf wc lc fresh tuples (some av) none
        m.prior_tuples_ordered_by_id 0 = .ok args →
      ∃ np, args.get? i = some (t.2.id, np) ∧
        np.gaussian.map GaussianData.sigma = some (max tp.2 av)) ∧
    (∀ rv args, gaussArgsAux gvf wc lc fresh tuples none (some rv)
        m.prior_tuples_ordered_by_id 0 = .ok args →
      ∃ np, args.get? i = some (t.2.id, np) ∧
        np.gaussian.map GaussianData.sigma = some (max tp.2 (rv * tp.1))) ∧
    (tp.2 = 0 → ∀ args, gaussArgsAux gvf wc lc fresh tuples (some 2) none
        m.prior_tuples_ordered_by_id 0 = .ok args →
      ∃ np, args.get? i = some (t.2.id, np) ∧
        np.gaussian.map GaussianData.sigma = some 2) ∧
    (tp.2 = 0 → ∀ args, gaussArgsAux gvf wc lc fresh tuples none (some 1)
        m.prior_tuples_ordered_by_id 0 = .ok args →
      ∃ np, args.get? i = some (t.2.id, np) ∧
        np.gaussian.map GaussianData.sigma = some (max 0 tp.1)) ∧
    (∀ a r args m2 k j fn p,
      gaussArgsAux gvf wc lc fresh tuples a r
        m.prior_tuples_ordered_by_id 0 = .ok args →
      m.mapper_from_gaussian_tuples gvf wc lc fresh tuples a r = .ok m2 →
      m.fieldAt k j = some (fn, .prior p) → p.id = t.2.id →
      ∃ np, args.get? i = some (t.2.id, np) ∧
        m2.fieldAt k j = some (fn, .prior np)) := by
  have habs : ∀ av args, gaussArgsAux gvf wc lc fresh tuples (some av) none
      m.prior_tuples_ordered_by_id 0 = .ok args →
      ∃ np, args.get? i = some (t.2.id, np) ∧
        np.gaussian.map GaussianData.sigma = some (max tp.2 av) := by
    intro av args hargs
    obtain ⟨tp2, w, h1, h2, h3⟩ := gaussArgsAux_get? gvf wc lc fresh tuples
      (some av) none m.prior_tuples_ordered_by_id 0 i args t hargs hord
    rw [Nat.zero_add] at h1 h3
    rw [htp] at h1
    cases h1
    have hwv : w = av := by
      rw [policyChoice] at h2
      simp only [widthOf, Option.some.injEq] at h2
      exact h2.symm
    subst hwv
    exact ⟨_, h3, rfl⟩
  have hrel : ∀ rv args, gaussArgsAux gvf wc lc fresh tuples none (some rv)
      m.prior_tuples_ordered_by_id 0 = .ok args →
      ∃ np, args.get? i = some (t.2.id, np) ∧
        np.gaussian.map GaussianData.sigma = some (max tp.2 (rv * tp.1)) := by
    intro rv args hargs
    obtain ⟨tp2, w, h1, h2, h3⟩ := gaussArgsAux_get? gvf wc lc fresh tuples
      none (some rv) m.prior_tuples_ordered_by_id 0 i args t hargs hord
    rw [Nat.zero_add] at h1 h3
    rw [htp] at h1
    cases h1
    have hwv : w = rv * tp.1 := by
      rw [policyChoice] at h2
      simp only [widthOf, Option.some.injEq] at h2
      exact h2.symm
    subst hwv
    exact ⟨_, h3, rfl⟩
  refine ⟨habs, hrel, ?_, ?_, ?_⟩
  · intro hw0 args hargs
    obtain ⟨np, h1, h2⟩ := habs 2 args hargs
    refine ⟨np, h1, ?_⟩
    rw [h2, hw0]
    norm_num
  · intro hw0 args hargs
    obtain ⟨np, h1, h2⟩ := hrel 1 args hargs
    refine ⟨np, h1, ?_⟩
    rw [h2, hw0, one_mul]
  · intro a r args m2 k j fn p hargs hm2 hf hpid
    obtain ⟨tp2, w, h1, h2, h3⟩ := gaussArgsAux_get? gvf wc lc fresh tuples
      a r m.prior_tuples_ordered_by_id 0 i args t hargs hord
    rw [Nat.zero_add] at h1 h3
    refine ⟨_, h3, ?_⟩
    rw [ModelMapper.mapper_from_gaussian_tuples, hargs] at hm2
    simp only [Except.map, Except.ok.injEq] at hm2
    have hkeys := gaussArgsAux_keys gvf wc lc fresh tuples a r
      m.prior_tuples_ordered_by_id 0 args hargs
    have hnd : (args.map Prod.fst).Nodup := by
      rw [hkeys]
      exact ordered_keys_nodup m
    have hfind := assoc_find?_of_nodup args i t.2.id _ hnd h3
    rw [← hm2]
    rw [ModelMapper.fieldAt] at hf ⊢
    rw [ModelMapper.mapper_from_prior_arguments]
    cases hmk : m.models.get? k with
    | none =>
      rw [hmk] at hf
      simp at hf
    | some nmpm =>
      rw [hmk] at hf
      simp only [Option.some_bind] at hf
      rw [List.get?_map, hmk]
      simp only [Option.map_some', Option.some_bind]
      rw [PriorModel.gaussian_prior_model_for_arguments]
      show ((nmpm.2.fields.map fun f => (f.1, f.2.subst args)).get? j) = _
      rw [List.get?_map, hf]
      simp only [Option.map_some', Option.some.injEq, Prod.mk.injEq]
      refine ⟨trivial, ?_⟩
      simp only [FieldValue.subst, hpid, hfind]

/-- C4 counterexample: refining the one-prior space from mean -1 with zero
empirical width and only r = 1 produces sigma max(0, -1) = 0, not the mean
-1 as the claim states. -/
theorem c4_counterexample :
    mapperSigma (mc8.mapper_from_gaussian_tuples gvf0 wc0 lc0 10 [(-1, 0)]
      none (some 1)) 0 0 = some 0 ∧ ((0 : ℚ) ≠ -1) := by
  constructor
  · have h1 : mapperSigma (mc8.mapper_from_gaussian_tuples gvf0 wc0 lc0 10
        [(-1, 0)] none (some 1)) 0 0 = some (max (0 : ℚ) (1 * -1)) := rfl
    rw [h1]
    norm_num
  · norm_num

/-- The refinement arguments produced on mc8 from mean 5 with a = 2. -/
def args4a : List (ℕ × Prior) :=
  [(1, mkGaussianPrior gvf0 (10 + 0) 5 (max 0 2) 0 1)]

/-- The refinement arguments produced on mc8 from mean 5 with r = 1. -/
def args4r : List (ℕ × Prior) :=
  [(1, mkGaussianPrior gvf0 (10 + 0) 5 (max 0 (1 * 5)) 0 1)]

/-- C4 witness: the sigma law evaluated on the one-prior space at mean 5
with zero empirical width, under a = 2 (sigma 2), under r = 1
(sigma max(0, 5)), and pushed through to the refined mapper's field. -/
theorem c4_witness :
    (∃ np, args4a.get? 0 = some (("a", p1w).2.id, np) ∧
      np.gaussian.map GaussianData.sigma = some 2) ∧
    (∃ np, args4r.get? 0 = some (("a", p1w).2.id, np) ∧
      np.gaussian.map GaussianData.sigma = some (max 0 (5 : ℚ))) ∧
    (∃ np, args4a.get? 0 = some (("a", p1w).2.id, np) ∧
      (mc8.mapper_from_prior_arguments args4a).fieldAt 0 0 =
        some ("a", .prior np)) := by
  have h := c4_refined_sigma gvf0 wc0 lc0 10 mc8 [((5 : ℚ), 0)] 0 ("a", p1w)
    ((5 : ℚ), 0) rfl rfl
  refine ⟨h.2.2.1 rfl args4a rfl, ?_, ?_⟩
  · have h2 := h.2.2.2.1 rfl args4r rfl
    simpa using h2
  · exact h.2.2.2.2 (some 2) none args4a
      (mc8.mapper_from_prior_arguments args4a) 0 0 "a" p1w rfl rfl rfl rfl
